import Mathlib

/-!
Verification of the concurrent analysis engine of VChecker (VCheck-Python).

The Python source is shallowly embedded as follows.

* `check_video_corruption` (src/VChecker.py lines 252-287) becomes a pure
  state-transformer.  All interaction with the operating system — whether the
  staging copy succeeds, whether `subprocess.Popen` raises, and the sequence of
  observations made by the 100 ms poll loop (has the process exited, is the
  stop flag set, has the per-file timeout elapsed) — is supplied by a `TaskEnv`
  describing one concrete execution.  The shared mutable globals
  (`ACTIVE_PROCESSES`, the set of staged local copies, the history of spawned
  processes and of `terminate()` requests) are threaded explicitly as a
  `SysState`.  The function returns `none` exactly when the Python loop would
  run forever (trace exhausted with the process still alive).
  `check_video_corruption_unlink` additionally keeps the deletion-error path
  of the `finally` block: the `unlink()` of line 287 has no handler around
  it, so a raised deletion error replaces the worker's return value;
  `check_video_corruption` is its error-free-deletion instance.

* `run_analysis` (lines 289-311) becomes a fold over the completion events of
  the worker pool: a list of `HarvestStep`s, one per completed future in
  completion order, each recording the value of `STOP_EVENT.is_set()` observed
  at the top of the loop body and the outcome of `future.result()`; plus the
  value of the flag at the post-loop check of line 307.

* `cleanup_active_processes` (lines 232-240), `save_report` (364-369) and
  `load_report` (371-385) are embedded directly.  Report files are modelled as
  lists of characters (`PyStr`), with Python's `str.strip` and `str.split`
  reimplemented on that representation.
-/

namespace VCheck

/-- Python strings, modelled as their lists of characters. -/
abbrev PyStr := List Char

/-- The classified outcome of analysing one file: the tuple
`(original_path, is_corrupted, reason)` returned by `check_video_corruption`. -/
structure Verdict where
  path : String
  corrupted : Bool
  reason : String
deriving DecidableEq, Repr

/-- The shared mutable state of the engine: `ACTIVE_PROCESSES` (the registry of
live verification processes, identified by pid), the history of every process
ever spawned, the history of every `terminate()` request issued, and the set of
staged local copies currently present on disk. -/
structure SysState where
  active : List Nat
  spawned : List Nat
  termRequested : List Nat
  staged : List String
deriving DecidableEq, Repr

/-- The empty initial state. -/
def st0 : SysState := ⟨[], [], [], []⟩

/-- One iteration of the poll loop of lines 271-278: whether an exception is
raised by this iteration's system calls, the result of `process.poll()`, the
value of `STOP_EVENT.is_set()`, and whether `time.time() - start_time` now
exceeds the configured timeout. -/
structure PollObs where
  raiseMsg : Option String
  exited : Option Int
  stopSet : Bool
  overTime : Bool
deriving DecidableEq, Repr

/-- How the monitored process run ended, as decided by the poll loop. -/
inductive LoopResult where
  | exited (code : Int)
  | cancelled
  | timedOut (t : Nat)
  | raised (msg : String)
deriving DecidableEq, Repr

/-- The poll loop of lines 271-278.  Each iteration first performs the system
calls (which may raise), then checks `process.poll()` (the `while` condition),
then the stop flag, then — only if `ANALYSIS_TIMEOUT` is not `None` — the
elapsed time.  `none` means the trace ran out with the loop still spinning. -/
def pollLoop (timeout : Option Nat) : List PollObs → Option LoopResult
  | [] => none
  | o :: rest =>
    match o.raiseMsg with
    | some m => some (.raised m)
    | none =>
      match o.exited with
      | some code => some (.exited code)
      | none =>
        if o.stopSet then some .cancelled
        else
          match timeout with
          | some t => if o.overTime then some (.timedOut t) else pollLoop (some t) rest
          | none => pollLoop none rest

/-- The environment of one `check_video_corruption` call: whether the
`shutil.copy2` staging copy succeeds and with what error message otherwise, the
randomized name of the local copy, whether `subprocess.Popen` raises, the pid of
the spawned process, the observation trace of the poll loop, and the value of
`STOP_EVENT.is_set()` read inside the `except` handler of line 282. -/
structure TaskEnv where
  copyOk : Bool
  copyErrMsg : String
  localName : String
  spawnFails : Option String
  pid : Nat
  poll : List PollObs
  stopAtHandler : Bool
deriving DecidableEq, Repr

/-- The `except` clause of line 282: an exception is classified as `Cancelled`
when the stop flag is set and as an unexpected error otherwise. -/
def classifyExcept (p : String) (stopSet : Bool) (msg : String) : Verdict :=
  if stopSet then ⟨p, false, "Cancelled"⟩
  else ⟨p, true, "Unexpected error: " ++ msg⟩

/-- Classification of a finished poll loop (lines 272-282). -/
def classifyLoop (p : String) (stopAtHandler : Bool) : LoopResult → Verdict
  | .exited code =>
      if code = 0 then ⟨p, false, "Healthy"⟩ else ⟨p, true, "Corruption detected"⟩
  | .cancelled => ⟨p, false, "Cancelled"⟩
  | .timedOut t => ⟨p, true, "Timeout (" ++ toString t ++ "s)"⟩
  | .raised msg => classifyExcept p stopAtHandler msg

/-- Record a `process.terminate(); process.wait(timeout=5)` request
(lines 273 and 276). -/
def requestTerm (pid : Nat) (st : SysState) : SysState :=
  { st with termRequested := pid :: st.termRequested }

/-- State effect of the loop outcome: cancellation and timeout both terminate
the process before returning; a natural exit or an exception do not. -/
def loopStateEffect (pid : Nat) : LoopResult → SysState → SysState
  | .cancelled, st => requestTerm pid st
  | .timedOut _, st => requestTerm pid st
  | .exited _, st => st
  | .raised _, st => st

/-- Line 286: `if process in ACTIVE_PROCESSES: ACTIVE_PROCESSES.remove(process)`. -/
def removeProc (active : List Nat) (pid : Nat) : List Nat :=
  if pid ∈ active then active.filter (fun q => q ≠ pid) else active

/-- Line 287: `if local_copy and local_copy.exists(): local_copy.unlink()` —
the staged copy is deleted only if it is still present, so the operation is a
no-op on a copy that is already gone. -/
def unstage (staged : List String) (name : String) : List String :=
  if name ∈ staged then staged.filter (fun s => s ≠ name) else staged

/-- The `finally` block of lines 283-287: deregister the process handle (when a
process was actually spawned) and remove the staged copy (when one was
created). -/
def finallyCleanup (hasProcess : Bool) (pid : Nat) (hasStaged : Bool)
    (name : String) (st : SysState) : SysState :=
  let st1 := if hasProcess then { st with active := removeProc st.active pid } else st
  if hasStaged then { st1 with staged := unstage st1.staged name } else st1

/-- Lines 257-261: on staging, the local copy appears on disk. -/
def stageState (useCache : Bool) (env : TaskEnv) (st : SysState) : SysState :=
  if useCache then { st with staged := env.localName :: st.staged } else st

/-- Line 268: `with PROCESS_LOCK: ACTIVE_PROCESSES.add(process)`, after the
spawn of line 267. -/
def registerState (useCache : Bool) (env : TaskEnv) (st : SysState) : SysState :=
  let st1 := stageState useCache env st
  { st1 with active := env.pid :: st1.active, spawned := env.pid :: st1.spawned }

/-- `check_video_corruption` (lines 252-287).  Returns the produced verdict and
the final shared state, or `none` if the poll loop never terminates.  The
copy-failure return of line 263 happens before the `try`, so the `finally`
block does not run on that path. -/
def check_video_corruption (originalPath : String) (useCache : Bool)
    (timeout : Option Nat) (env : TaskEnv) (st : SysState) :
    Option (Verdict × SysState) :=
  if useCache && !env.copyOk then
    some (⟨originalPath, true, "Local copy error: " ++ env.copyErrMsg⟩, st)
  else
    match env.spawnFails with
    | some msg =>
        some (classifyExcept originalPath env.stopAtHandler msg,
          finallyCleanup false env.pid useCache env.localName
            (stageState useCache env st))
    | none =>
        match pollLoop timeout env.poll with
        | none => none
        | some r =>
            some (classifyLoop originalPath env.stopAtHandler r,
              finallyCleanup true env.pid useCache env.localName
                (loopStateEffect env.pid r (registerState useCache env st)))

/-- Line 287 with the fallibility of `Path.unlink` made explicit: the
existence guard rules out only the missing-file case, and deleting an existing
staged copy may still raise an OSError, in which case the copy stays on local
storage.  Returns the resulting staged set and the raised message, if any. -/
def unstageFallible (staged : List String) (name : String)
    (unlinkFails : Option String) : List String × Option String :=
  if name ∈ staged then
    match unlinkFails with
    | some msg => (staged, some msg)
    | none => (staged.filter (fun s => s ≠ name), none)
  else (staged, none)

/-- The `finally` block of lines 283-287 with the fallible unlink: it has no
handler of its own, so the raised message, if any, escapes the block. -/
def finallyCleanupFallible (hasProcess : Bool) (pid : Nat) (hasStaged : Bool)
    (name : String) (unlinkFails : Option String) (st : SysState) :
    SysState × Option String :=
  let st1 := if hasProcess then { st with active := removeProc st.active pid } else st
  if hasStaged then
    ({ st1 with staged := (unstageFallible st1.staged name unlinkFails).1 },
      (unstageFallible st1.staged name unlinkFails).2)
  else (st1, none)

/-- Python semantics of a `finally` block that raises: the pending return
value is discarded and the exception propagates instead. -/
def raiseOr (fc : SysState × Option String) (v : Verdict) :
    Except String Verdict × SysState :=
  match fc.2 with
  | some m => (Except.error m, fc.1)
  | none => (Except.ok v, fc.1)

/-- `check_video_corruption` (lines 252-287) with the deletion-error path of
line 287 kept: when the unlink in the `finally` block raises, the exception
replaces the worker's pending return value, so the call raises
(`Except.error`) and the task's verdict is lost.  `check_video_corruption`
itself is the `unlinkFails = none` instance of this function. -/
def check_video_corruption_unlink (originalPath : String) (useCache : Bool)
    (timeout : Option Nat) (env : TaskEnv) (unlinkFails : Option String)
    (st : SysState) : Option (Except String Verdict × SysState) :=
  if useCache && !env.copyOk then
    some (Except.ok ⟨originalPath, true, "Local copy error: " ++ env.copyErrMsg⟩, st)
  else
    match env.spawnFails with
    | some msg =>
        some (raiseOr
          (finallyCleanupFallible false env.pid useCache env.localName unlinkFails
            (stageState useCache env st))
          (classifyExcept originalPath env.stopAtHandler msg))
    | none =>
        match pollLoop timeout env.poll with
        | none => none
        | some r =>
            some (raiseOr
              (finallyCleanupFallible true env.pid useCache env.localName unlinkFails
                (loopStateEffect env.pid r (registerState useCache env st)))
              (classifyLoop originalPath env.stopAtHandler r))

/-- Whether the spawned process received a `terminate()` request during the
given call. -/
def checkTermRequested (originalPath : String) (useCache : Bool)
    (timeout : Option Nat) (env : TaskEnv) (st : SysState) : Bool :=
  match check_video_corruption originalPath useCache timeout env st with
  | some r => r.2.termRequested.contains env.pid
  | none => false

/-- `cleanup_active_processes` (lines 232-240): snapshot the registry, return
immediately if it is empty, otherwise request termination of every member and
clear the registry. -/
def cleanup_active_processes (st : SysState) : SysState :=
  if st.active.isEmpty then st
  else { st with active := [], termRequested := st.termRequested ++ st.active }

instance : DecidableEq (Except String Verdict) := fun a b =>
  match a, b with
  | .ok x, .ok y =>
      if h : x = y then isTrue (by rw [h]) else isFalse (by simp [h])
  | .error x, .error y =>
      if h : x = y then isTrue (by rw [h]) else isFalse (by simp [h])
  | .ok _, .error _ => isFalse (by simp)
  | .error _, .ok _ => isFalse (by simp)

/-- One completed future harvested by the `as_completed` loop of lines 300-306:
the value of `STOP_EVENT.is_set()` observed at the top of the loop body, and
the outcome of `future.result()` (a verdict, or a raised exception). -/
structure HarvestStep where
  stopSet : Bool
  result : Except String Verdict
deriving DecidableEq

/-- What the harvesting loop accumulates: the `corrupted_files` list of
`(path, reason)` pairs, the verdicts actually harvested, and the messages
logged by the `except` clause of line 305. -/
structure HarvestOut where
  corrupted : List (String × String)
  harvested : List Verdict
  errors : List String
deriving DecidableEq

/-- The `for future in as_completed(...)` loop of lines 300-306.  A step whose
stop flag reads true breaks out of the loop; an `Except.ok` verdict is
harvested and, when corrupted, appended to `corrupted_files`; a raised future
is logged and skipped. -/
def harvestLoop : List HarvestStep → HarvestOut
  | [] => ⟨[], [], []⟩
  | s :: rest =>
    if s.stopSet then ⟨[], [], []⟩
    else
      match s.result with
      | .ok v =>
          let out := harvestLoop rest
          ⟨(if v.corrupted then [(v.path, v.reason)] else []) ++ out.corrupted,
            v :: out.harvested, out.errors⟩
      | .error msg =>
          let out := harvestLoop rest
          ⟨out.corrupted, out.harvested, ("An analysis task failed: " ++ msg) :: out.errors⟩

/-- Lexicographic comparison of character lists by code point: the order Python
uses on the normalized path strings in `sorted(corrupted_files, key=lambda x: x[0])`. -/
def charListLe : List Char → List Char → Bool
  | [], _ => true
  | _ :: _, [] => false
  | a :: as, b :: bs => if a < b then true else if b < a then false else charListLe as bs

/-- The sort key of line 311: pairs are compared by their path component only. -/
def pairLE (x y : String × String) : Prop := charListLe x.1.data y.1.data = true

instance : DecidableRel pairLE := fun x y =>
  inferInstanceAs (Decidable (charListLe x.1.data y.1.data = true))

/-- The pairs appended to `corrupted_files` by lines 303-304: the corrupted
verdicts, in order, projected to `(path, reason)`. -/
def corruptedEntries (vs : List Verdict) : List (String × String) :=
  (vs.filter (fun v => v.corrupted)).map (fun v => (v.path, v.reason))

/-- The aggregation performed by `run_analysis`: filter to corrupted verdicts
and sort ascending by path with a stable sort, as `sorted` of line 311 does. -/
def finalizeVerdicts (vs : List Verdict) : List (String × String) :=
  List.insertionSort pairLE (corruptedEntries vs)

/-- `run_analysis` (lines 289-311), given the completion events of the pool and
the value of `STOP_EVENT.is_set()` at the post-loop check of line 307.  When
the flag is set there, all running processes are bulk-terminated and the empty
list is returned, discarding everything collected; otherwise the collected
`corrupted_files` list is sorted by path and returned. -/
def run_analysis (steps : List HarvestStep) (stopAtEnd : Bool) (st : SysState) :
    List (String × String) × SysState :=
  let out := harvestLoop steps
  if stopAtEnd then ([], cleanup_active_processes st)
  else (List.insertionSort pairLE out.corrupted, st)

/-- One admissible schedule of the pool: the submitted tasks run one after the
other, each producing exactly one verdict via `check_video_corruption` and
threading the shared state.  Returns `none` if some task never terminates. -/
def runTasks (useCache : Bool) (timeout : Option Nat) :
    List (String × TaskEnv) → SysState → Option (List Verdict × SysState)
  | [], st => some ([], st)
  | (p, env) :: rest, st =>
    match check_video_corruption p useCache timeout env st with
    | none => none
    | some (v, st1) =>
        match runTasks useCache timeout rest st1 with
        | none => none
        | some (vs, st2) => some (v :: vs, st2)

/-- Characters treated as whitespace by Python's `str.strip` (ASCII range). -/
def pyIsSpace (c : Char) : Bool :=
  c = ' ' || c = '\t' || c = '\n' || c = '\r' || c = '\x0b' || c = '\x0c'

/-- Python's `str.strip()`: drop whitespace from both ends. -/
def pyStrip (s : PyStr) : PyStr :=
  ((s.dropWhile pyIsSpace).reverse.dropWhile pyIsSpace).reverse

/-- Python's `str.split(sep)` for a one-character separator: splitting never
yields the empty list, and splitting the empty string yields one empty field. -/
def splitOnChar (sep : Char) : PyStr → List PyStr
  | [] => [[]]
  | c :: cs =>
    if c = sep then [] :: splitOnChar sep cs
    else
      match splitOnChar sep cs with
      | [] => [[c]]
      | p :: ps => (c :: p) :: ps

/-- The line `save_report` writes for one `(path, reason)` pair (line 367):
`path`, a tab, `reason` — the final newline is accounted for separately. -/
def lineOf (pr : PyStr × PyStr) : PyStr := pr.1 ++ '\t' :: pr.2

/-- `save_report` (lines 364-369): the file content produced for a list of
`(path, reason)` pairs, one tab-separated line per pair. -/
def save_report : List (PyStr × PyStr) → PyStr
  | [] => []
  | pr :: rest => (lineOf pr ++ ['\n']) ++ save_report rest

/-- The warning logged by line 381 for a path that no longer exists. -/
def warnMsg (p : PyStr) : PyStr :=
  "File listed in report not found, skipping: ".data ++ p

/-- The per-line loop of `load_report` (lines 376-381): strip each line, split
on tabs, keep exactly-two-field lines whose path still exists, log a warning
for two-field lines whose path is gone, and ignore everything else. -/
def parseLines (fsExists : PyStr → Bool) :
    List PyStr → List (PyStr × PyStr) × List PyStr
  | [] => ([], [])
  | line :: rest =>
    match splitOnChar '\t' (pyStrip line) with
    | [p, r] =>
        if fsExists p then
          ((p, r) :: (parseLines fsExists rest).1, (parseLines fsExists rest).2)
        else
          ((parseLines fsExists rest).1, warnMsg p :: (parseLines fsExists rest).2)
    | _ => parseLines fsExists rest

/-- `load_report` (lines 371-385) on a file content, parameterized by the
`path.exists()` oracle.  Returns the loaded pairs and the logged warnings. -/
def load_report (fsExists : PyStr → Bool) (content : PyStr) :
    List (PyStr × PyStr) × List PyStr :=
  parseLines fsExists (splitOnChar '\n' content)

/-- A pair whose written line survives the strip-and-split round trip intact:
path and reason are free of tabs and newlines, and the line carries no leading
or trailing whitespace that `str.strip` would remove. -/
def GoodPair (pr : PyStr × PyStr) : Prop :=
  pyStrip (lineOf pr) = lineOf pr ∧ '\t' ∉ pr.1 ∧ '\t' ∉ pr.2 ∧
    '\n' ∉ pr.1 ∧ '\n' ∉ pr.2

instance (pr : PyStr × PyStr) : Decidable (GoodPair pr) :=
  inferInstanceAs (Decidable (_ ∧ _ ∧ _ ∧ _ ∧ _))

/-! ### Order-theoretic facts about the path comparator -/

theorem charListLe_total : ∀ x y : List Char, charListLe x y = true ∨ charListLe y x = true
  | [], _ => Or.inl rfl
  | _ :: _, [] => Or.inr rfl
  | a :: as, b :: bs => by
    by_cases hab : a < b
    · exact Or.inl (by simp [charListLe, hab])
    · by_cases hba : b < a
      · exact Or.inr (by simp [charListLe, hba])
      · rcases charListLe_total as bs with h | h
        · exact Or.inl (by simp [charListLe, hab, hba, h])
        · exact Or.inr (by simp [charListLe, hab, hba, h])

theorem charListLe_trans :
    ∀ x y z : List Char, charListLe x y = true → charListLe y z = true →
      charListLe x z = true
  | [], _, _, _, _ => rfl
  | _ :: _, [], _, h, _ => by simp [charListLe] at h
  | _ :: _, _ :: _, [], _, h => by simp [charListLe] at h
  | a :: as, b :: bs, c :: cs, h1, h2 => by
    simp only [charListLe] at h1 h2 ⊢
    by_cases hab : a < b
    · by_cases hbc : b < c
      · simp [lt_trans hab hbc]
      · by_cases hcb : c < b
        · simp [hbc, hcb] at h2
        · have hbc' : b = c := le_antisymm (not_lt.mp hcb) (not_lt.mp hbc)
          simp [hbc' ▸ hab]
    · by_cases hba : b < a
      · simp [hab, hba] at h1
      · have hab' : a = b := le_antisymm (not_lt.mp hba) (not_lt.mp hab)
        subst hab'
        by_cases hbc : a < c
        · simp [hbc]
        · by_cases hcb : c < a
          · simp [hbc, hcb] at h2
          · rw [if_neg (lt_irrefl a), if_neg (lt_irrefl a)] at h1
            rw [if_neg hbc, if_neg hcb] at h2
            rw [if_neg hbc, if_neg hcb]
            exact charListLe_trans as bs cs h1 h2

theorem charListLe_antisymm :
    ∀ x y : List Char, charListLe x y = true → charListLe y x = true → x = y
  | [], [], _, _ => rfl
  | [], _ :: _, _, h => by simp [charListLe] at h
  | _ :: _, [], h, _ => by simp [charListLe] at h
  | a :: as, b :: bs, h1, h2 => by
    simp only [charListLe] at h1 h2
    by_cases hab : a < b
    · simp [hab, lt_asymm hab] at h2
    · by_cases hba : b < a
      · simp [hab, hba] at h1
      · have hab' : a = b := le_antisymm (not_lt.mp hba) (not_lt.mp hab)
        subst hab'
        have := charListLe_antisymm as bs (by simpa [hab] using h1) (by simpa [hab] using h2)
        rw [this]

instance : IsTotal (String × String) pairLE :=
  ⟨fun x y => charListLe_total x.1.data y.1.data⟩

instance : IsTrans (String × String) pairLE :=
  ⟨fun _ _ _ h1 h2 => charListLe_trans _ _ _ h1 h2⟩

/-- Two lists of pairs that are permutations of one another, both sorted by the
path component, and whose paths repeat nowhere, are equal. -/
theorem sortedKeyNodupEq :
    ∀ l₁ l₂ : List (String × String), l₁.Perm l₂ →
      l₁.Sorted pairLE → l₂.Sorted pairLE → (l₁.map Prod.fst).Nodup → l₁ = l₂
  | [], l₂, hp, _, _, _ => (hp.nil_eq).symm ▸ rfl
  | a :: t₁, [], hp, _, _, _ => absurd hp.symm (by simp)
  | a :: t₁, b :: t₂, hp, hs₁, hs₂, hnd => by
    have hab : a = b := by
      have ha2 : a ∈ b :: t₂ := hp.subset (List.mem_cons_self a t₁)
      have hb1 : b ∈ a :: t₁ := hp.symm.subset (List.mem_cons_self b t₂)
      rcases List.mem_cons.mp ha2 with h | ha2'
      · exact h
      rcases List.mem_cons.mp hb1 with h | hb1'
      · exact h.symm
      have h1 : pairLE a b := (List.sorted_cons.mp hs₁).1 b hb1'
      have h2 : pairLE b a := (List.sorted_cons.mp hs₂).1 a ha2'
      have hfst : a.1 = b.1 := by
        have := charListLe_antisymm _ _ h1 h2
        exact String.ext (by exact this)
      exfalso
      have : a.1 ∈ t₁.map Prod.fst := hfst ▸ List.mem_map_of_mem Prod.fst hb1'
      exact (List.nodup_cons.mp hnd).1 this
    subst hab
    have ht : t₁.Perm t₂ := hp.cons_inv
    have := sortedKeyNodupEq t₁ t₂ ht (List.sorted_cons.mp hs₁).2
      (List.sorted_cons.mp hs₂).2 (List.nodup_cons.mp hnd).2
    rw [this]

/-! ### Facts about the harvesting loop -/

theorem harvestLoop_append (l₁ l₂ : List HarvestStep)
    (h : ∀ s ∈ l₁, s.stopSet = false) :
    harvestLoop (l₁ ++ l₂) =
      ⟨(harvestLoop l₁).corrupted ++ (harvestLoop l₂).corrupted,
        (harvestLoop l₁).harvested ++ (harvestLoop l₂).harvested,
        (harvestLoop l₁).errors ++ (harvestLoop l₂).errors⟩ := by
  induction l₁ with
  | nil => simp [harvestLoop]
  | cons s rest ih =>
    have hs : s.stopSet = false := h s (List.mem_cons_self s rest)
    have hrest : ∀ t ∈ rest, t.stopSet = false := fun t ht => h t (List.mem_cons_of_mem s ht)
    cases hres : s.result with
    | ok v =>
        simp [harvestLoop, hs, hres, ih hrest, List.append_assoc]
    | error m =>
        simp [harvestLoop, hs, hres, ih hrest]

theorem harvested_all_ok (steps : List HarvestStep)
    (h : ∀ s ∈ steps, s.stopSet = false ∧ ∃ v, s.result = Except.ok v) :
    (harvestLoop steps).harvested.length = steps.length := by
  induction steps with
  | nil => rfl
  | cons s rest ih =>
    obtain ⟨hs, v, hv⟩ := h s (List.mem_cons_self s rest)
    have hrest := fun t ht => h t (List.mem_cons_of_mem s ht)
    simp [harvestLoop, hs, hv, ih hrest]

theorem harvested_filterMap (steps : List HarvestStep)
    (h : ∀ s ∈ steps, s.stopSet = false) :
    (harvestLoop steps).harvested =
      steps.filterMap (fun s => s.result.toOption) := by
  induction steps with
  | nil => rfl
  | cons s rest ih =>
    have hs : s.stopSet = false := h s (List.mem_cons_self s rest)
    have hrest := fun t ht => h t (List.mem_cons_of_mem s ht)
    cases hres : s.result with
    | ok v => simp [harvestLoop, hs, hres, ih hrest, Except.toOption]
    | error m => simp [harvestLoop, hs, hres, ih hrest, Except.toOption]

theorem mem_harvestLoop_corrupted (steps : List HarvestStep) (e : String × String)
    (he : e ∈ (harvestLoop steps).corrupted) :
    ∃ s ∈ steps, ∃ v, s.result = Except.ok v ∧ v.corrupted = true ∧
      e = (v.path, v.reason) := by
  induction steps with
  | nil => simp [harvestLoop] at he
  | cons s rest ih =>
    by_cases hs : s.stopSet
    · simp [harvestLoop, hs] at he
    · cases hres : s.result with
      | ok v =>
          simp only [harvestLoop, if_neg hs, hres] at he
          by_cases hc : v.corrupted
          · simp only [hc, if_true, List.singleton_append, List.mem_cons] at he
            rcases he with he | he
            · exact ⟨s, List.mem_cons_self s rest, v, hres, hc, he⟩
            · obtain ⟨t, ht, w, hw⟩ := ih he
              exact ⟨t, List.mem_cons_of_mem s ht, w, hw⟩
          · simp only [hc, if_false, List.nil_append] at he
            obtain ⟨t, ht, w, hw⟩ := ih he
            exact ⟨t, List.mem_cons_of_mem s ht, w, hw⟩
      | error m =>
          simp only [harvestLoop, if_neg hs, hres] at he
          obtain ⟨t, ht, w, hw⟩ := ih he
          exact ⟨t, List.mem_cons_of_mem s ht, w, hw⟩

theorem harvestLoop_corrupted_eq_entries (steps : List HarvestStep) :
    (harvestLoop steps).corrupted = corruptedEntries (harvestLoop steps).harvested := by
  induction steps with
  | nil => rfl
  | cons s rest ih =>
    by_cases hs : s.stopSet
    · simp [harvestLoop, hs, corruptedEntries]
    · cases hres : s.result with
      | ok v =>
          by_cases hc : v.corrupted <;>
            simp [harvestLoop, hs, hres, corruptedEntries, List.filter_cons, hc, ih]
      | error m =>
          simp [harvestLoop, hs, hres, ih]

/-! ### Shape of `check_video_corruption` on each execution path -/

theorem check_copy_fail (p : String) (timeout : Option Nat) (env : TaskEnv)
    (st : SysState) (h : env.copyOk = false) :
    check_video_corruption p true timeout env st =
      some (⟨p, true, "Local copy error: " ++ env.copyErrMsg⟩, st) := by
  simp [check_video_corruption, h]

theorem check_spawn_fail (p : String) (uc : Bool) (timeout : Option Nat)
    (env : TaskEnv) (st : SysState) (msg : String)
    (hcopy : uc = true → env.copyOk = true) (h : env.spawnFails = some msg) :
    check_video_corruption p uc timeout env st =
      some (classifyExcept p env.stopAtHandler msg,
        finallyCleanup false env.pid uc env.localName (stageState uc env st)) := by
  cases uc with
  | false => simp [check_video_corruption, h]
  | true => simp [check_video_corruption, h, hcopy rfl]

theorem check_spawn_ok (p : String) (uc : Bool) (timeout : Option Nat)
    (env : TaskEnv) (st : SysState) (r : LoopResult)
    (hcopy : uc = true → env.copyOk = true) (hsp : env.spawnFails = none)
    (hpoll : pollLoop timeout env.poll = some r) :
    check_video_corruption p uc timeout env st =
      some (classifyLoop p env.stopAtHandler r,
        finallyCleanup true env.pid uc env.localName
          (loopStateEffect env.pid r (registerState uc env st))) := by
  cases uc with
  | false => simp [check_video_corruption, hsp, hpoll]
  | true => simp [check_video_corruption, hsp, hpoll, hcopy rfl]

theorem check_diverges (p : String) (uc : Bool) (timeout : Option Nat)
    (env : TaskEnv) (st : SysState)
    (hcopy : uc = true → env.copyOk = true) (hsp : env.spawnFails = none)
    (hpoll : pollLoop timeout env.poll = none) :
    check_video_corruption p uc timeout env st = none := by
  cases uc with
  | false => simp [check_video_corruption, hsp, hpoll]
  | true => simp [check_video_corruption, hsp, hpoll, hcopy rfl]

/-! ### Reason strings of corrupted verdicts are never the cancellation marker -/

theorem append_ne_cancelled (pre suf : String) (hpre : 9 < pre.length) :
    pre ++ suf ≠ "Cancelled" := by
  intro h
  have hlen := congrArg String.length h
  rw [String.length_append] at hlen
  have h9 : ("Cancelled" : String).length = 9 := rfl
  omega

theorem classifyExcept_cancelled_not_corrupted (p : String) (b : Bool) (msg : String) :
    (classifyExcept p b msg).reason = "Cancelled" →
      (classifyExcept p b msg).corrupted = false := by
  cases b with
  | false =>
      intro h
      have hne : ("Unexpected error: " ++ msg : String) ≠ "Cancelled" :=
        append_ne_cancelled "Unexpected error: " msg (by decide)
      simp only [classifyExcept, if_neg Bool.false_ne_true] at h
      exact absurd h hne
  | true => intro _; rfl

theorem classifyLoop_cancelled_not_corrupted (p : String) (b : Bool) (r : LoopResult) :
    (classifyLoop p b r).reason = "Cancelled" →
      (classifyLoop p b r).corrupted = false := by
  cases r with
  | exited code =>
      by_cases hc : code = 0
      · intro _; simp [classifyLoop, hc]
      · intro h
        simp only [classifyLoop, if_neg hc] at h
        exact absurd h (by decide)
  | cancelled => intro _; rfl
  | timedOut t =>
      intro h
      have := congrArg String.length (by simpa [classifyLoop] using h)
      rw [String.length_append, String.length_append] at this
      have h1 : ("Timeout (" : String).length = 9 := rfl
      have h2 : ("s)" : String).length = 2 := rfl
      have h3 : ("Cancelled" : String).length = 9 := rfl
      omega
  | raised msg => exact classifyExcept_cancelled_not_corrupted p b msg

/-! ### Facts about the report format -/

theorem splitOnChar_no_sep (sep : Char) (l : PyStr) (h : sep ∉ l) :
    splitOnChar sep l = [l] := by
  induction l with
  | nil => rfl
  | cons c cs ih =>
    have hc : c ≠ sep := fun he => h (he ▸ List.mem_cons_self c cs)
    have hcs : sep ∉ cs := fun hm => h (List.mem_cons_of_mem c hm)
    simp [splitOnChar, hc, ih hcs]

theorem splitOnChar_cons_self (sep : Char) (cs : PyStr) :
    splitOnChar sep (sep :: cs) = [] :: splitOnChar sep cs := by
  simp [splitOnChar]

theorem splitOnChar_cons_ne (sep c : Char) (cs : PyStr) (hc : c ≠ sep)
    (p : PyStr) (ps : List PyStr) (hs : splitOnChar sep cs = p :: ps) :
    splitOnChar sep (c :: cs) = (c :: p) :: ps := by
  simp [splitOnChar, hc, hs]

theorem splitOnChar_append (sep : Char) (a b : PyStr) (h : sep ∉ a) :
    splitOnChar sep (a ++ sep :: b) = a :: splitOnChar sep b := by
  induction a with
  | nil => simp [splitOnChar]
  | cons c cs ih =>
    have hc : c ≠ sep := fun he => h (he ▸ List.mem_cons_self c cs)
    have hcs : sep ∉ cs := fun hm => h (List.mem_cons_of_mem c hm)
    have hrec := ih hcs
    cases hs : splitOnChar sep (cs ++ sep :: b) with
    | nil => rw [hs] at hrec; exact absurd hrec.symm (by simp)
    | cons p ps =>
        rw [hs] at hrec
        injection hrec with hp hps
        rw [List.cons_append, splitOnChar_cons_ne sep c _ hc p ps hs, hp, hps]

theorem splitOnChar_ne_nil (sep : Char) (l : PyStr) : splitOnChar sep l ≠ [] := by
  cases l with
  | nil => simp [splitOnChar]
  | cons c cs =>
    by_cases hc : c = sep
    · simp [splitOnChar, hc]
    · cases hs : splitOnChar sep cs <;> simp [splitOnChar, hc, hs]

theorem length_splitOnChar (sep : Char) (l : PyStr) :
    (splitOnChar sep l).length = l.count sep + 1 := by
  induction l with
  | nil => rfl
  | cons c cs ih =>
    by_cases hc : c = sep
    · subst hc
      simp [splitOnChar, List.count_cons, ih]
    · cases hs : splitOnChar sep cs with
      | nil => exact absurd hs (splitOnChar_ne_nil sep cs)
      | cons p ps =>
          rw [hs] at ih
          simp only [List.length_cons] at ih
          simp [splitOnChar, hc, hs, List.count_cons, Ne.symm hc, ih]

theorem not_sep_of_mem_splitOnChar (sep : Char) (l : PyStr) :
    ∀ t ∈ splitOnChar sep l, sep ∉ t := by
  induction l with
  | nil =>
      intro t ht
      rw [show splitOnChar sep [] = [[]] from rfl, List.mem_singleton] at ht
      rw [ht]
      exact List.not_mem_nil sep
  | cons c cs ih =>
    intro t ht
    by_cases hc : c = sep
    · subst hc
      rw [splitOnChar_cons_self, List.mem_cons] at ht
      rcases ht with ht | ht
      · rw [ht]; exact List.not_mem_nil c
      · exact ih t ht
    · cases hs : splitOnChar sep cs with
      | nil => exact absurd hs (splitOnChar_ne_nil sep cs)
      | cons p ps =>
          rw [splitOnChar_cons_ne sep c cs hc p ps hs, List.mem_cons] at ht
          rcases ht with ht | ht
          · subst ht
            intro hm
            rcases List.mem_cons.mp hm with hm | hm
            · exact hc hm.symm
            · exact ih p (hs ▸ List.mem_cons_self p ps) hm
          · exact ih t (hs ▸ List.mem_cons_of_mem p ht)

theorem mem_of_mem_splitOnChar (sep : Char) (l : PyStr) :
    ∀ t ∈ splitOnChar sep l, ∀ c ∈ t, c ∈ l := by
  induction l with
  | nil =>
      intro t ht
      rw [show splitOnChar sep [] = [[]] from rfl, List.mem_singleton] at ht
      rw [ht]
      intro c hc
      exact absurd hc (List.not_mem_nil c)
  | cons a cs ih =>
    intro t ht c hc
    by_cases ha : a = sep
    · subst ha
      rw [splitOnChar_cons_self, List.mem_cons] at ht
      rcases ht with ht | ht
      · rw [ht] at hc; exact absurd hc (List.not_mem_nil c)
      · exact List.mem_cons_of_mem a (ih t ht c hc)
    · cases hs : splitOnChar sep cs with
      | nil => exact absurd hs (splitOnChar_ne_nil sep cs)
      | cons p ps =>
          rw [splitOnChar_cons_ne sep a cs ha p ps hs, List.mem_cons] at ht
          rcases ht with ht | ht
          · subst ht
            rcases List.mem_cons.mp hc with hc | hc
            · exact hc ▸ List.mem_cons_self a cs
            · exact List.mem_cons_of_mem a (ih p (hs ▸ List.mem_cons_self p ps) c hc)
          · exact List.mem_cons_of_mem a (ih t (hs ▸ List.mem_cons_of_mem p ht) c hc)

theorem mem_of_mem_pyStrip (s : PyStr) (c : Char) (h : c ∈ pyStrip s) : c ∈ s := by
  have h1 :=
    (@List.dropWhile_sublist Char ((s.dropWhile pyIsSpace).reverse) pyIsSpace).subset
  have h2 := (@List.dropWhile_sublist Char s pyIsSpace).subset
  rw [pyStrip] at h
  exact h2 (List.mem_reverse.mp (h1 (List.mem_reverse.mp h)))

theorem newline_not_mem_lineOf (pr : PyStr × PyStr) (hg : GoodPair pr) :
    '\n' ∉ lineOf pr := by
  intro hm
  rw [lineOf] at hm
  rcases List.mem_append.mp hm with h | h
  · exact hg.2.2.2.1 h
  · rcases List.mem_cons.mp h with h | h
    · exact absurd h (by decide)
    · exact hg.2.2.2.2 h

theorem save_report_split (pairs : List (PyStr × PyStr))
    (h : ∀ pr ∈ pairs, '\n' ∉ lineOf pr) :
    splitOnChar '\n' (save_report pairs) = pairs.map lineOf ++ [[]] := by
  induction pairs with
  | nil => rfl
  | cons pr rest ih =>
    have h1 : '\n' ∉ lineOf pr := h pr (List.mem_cons_self pr rest)
    have hrest := fun q hq => h q (List.mem_cons_of_mem pr hq)
    rw [save_report, List.append_assoc, List.singleton_append,
      splitOnChar_append '\n' _ _ h1, ih hrest]
    simp

theorem parse_good_line (pr : PyStr × PyStr) (hg : GoodPair pr) :
    splitOnChar '\t' (pyStrip (lineOf pr)) = [pr.1, pr.2] := by
  rw [hg.1, lineOf, splitOnChar_append '\t' _ _ hg.2.1,
    splitOnChar_no_sep '\t' _ hg.2.2.1]

theorem parseLines_good (fsE : PyStr → Bool) (pairs : List (PyStr × PyStr))
    (hg : ∀ pr ∈ pairs, GoodPair pr) :
    parseLines fsE (pairs.map lineOf ++ [[]]) =
      (pairs.filter (fun pr => fsE pr.1),
        (pairs.filter (fun pr => !fsE pr.1)).map (fun pr => warnMsg pr.1)) := by
  induction pairs with
  | nil => rfl
  | cons pr rest ih =>
    have h1 := hg pr (List.mem_cons_self pr rest)
    have hrest := fun q hq => hg q (List.mem_cons_of_mem pr hq)
    simp only [List.map_cons, List.cons_append, parseLines,
      parse_good_line pr h1, List.filter_cons]
    by_cases hf : fsE pr.1 <;> simp [hf, ih hrest]

theorem load_report_save_report (fsE : PyStr → Bool) (pairs : List (PyStr × PyStr))
    (hg : ∀ pr ∈ pairs, GoodPair pr) :
    load_report fsE (save_report pairs) =
      (pairs.filter (fun pr => fsE pr.1),
        (pairs.filter (fun pr => !fsE pr.1)).map (fun pr => warnMsg pr.1)) := by
  rw [load_report, save_report_split pairs
    (fun pr hpr => newline_not_mem_lineOf pr (hg pr hpr)), parseLines_good fsE pairs hg]

theorem parseLines_mem (fsE : PyStr → Bool) (lines : List PyStr) :
    ∀ pr ∈ (parseLines fsE lines).1,
      ∃ line ∈ lines, splitOnChar '\t' (pyStrip line) = [pr.1, pr.2] ∧
        fsE pr.1 = true := by
  induction lines with
  | nil => intro pr hpr; simp [parseLines] at hpr
  | cons line rest ih =>
    intro pr hpr
    rcases hs : splitOnChar '\t' (pyStrip line) with _ | ⟨p, _ | ⟨r, _ | _⟩⟩
    · simp only [parseLines, hs] at hpr
      obtain ⟨l2, hl2, hsp, hfe⟩ := ih pr hpr
      exact ⟨l2, List.mem_cons_of_mem line hl2, hsp, hfe⟩
    · simp only [parseLines, hs] at hpr
      obtain ⟨l2, hl2, hsp, hfe⟩ := ih pr hpr
      exact ⟨l2, List.mem_cons_of_mem line hl2, hsp, hfe⟩
    · simp only [parseLines, hs] at hpr
      by_cases hf : fsE p
      · rw [if_pos hf] at hpr
        rcases List.mem_cons.mp hpr with hpr | hpr
        · subst hpr
          exact ⟨line, List.mem_cons_self line rest, hs, hf⟩
        · obtain ⟨l2, hl2, hsp, hfe⟩ := ih pr hpr
          exact ⟨l2, List.mem_cons_of_mem line hl2, hsp, hfe⟩
      · rw [if_neg hf] at hpr
        obtain ⟨l2, hl2, hsp, hfe⟩ := ih pr hpr
        exact ⟨l2, List.mem_cons_of_mem line hl2, hsp, hfe⟩
    · simp only [parseLines, hs] at hpr
      obtain ⟨l2, hl2, hsp, hfe⟩ := ih pr hpr
      exact ⟨l2, List.mem_cons_of_mem line hl2, hsp, hfe⟩

theorem parseLines_append (fsE : PyStr → Bool) (l₁ l₂ : List PyStr) :
    parseLines fsE (l₁ ++ l₂) =
      ((parseLines fsE l₁).1 ++ (parseLines fsE l₂).1,
        (parseLines fsE l₁).2 ++ (parseLines fsE l₂).2) := by
  induction l₁ with
  | nil => simp [parseLines]
  | cons line rest ih =>
    rcases hs : splitOnChar '\t' (pyStrip line) with _ | ⟨p, _ | ⟨r, _ | _⟩⟩
    · simp [parseLines, hs, ih]
    · simp [parseLines, hs, ih]
    · by_cases hf : fsE p <;> simp [parseLines, hs, hf, ih]
    · simp [parseLines, hs, ih]

theorem parseLines_bad_line (fsE : PyStr → Bool) (line : PyStr)
    (h : (splitOnChar '\t' (pyStrip line)).length ≠ 2) (rest : List PyStr) :
    parseLines fsE (line :: rest) = parseLines fsE rest := by
  rcases hs : splitOnChar '\t' (pyStrip line) with _ | ⟨p, _ | ⟨r, _ | _⟩⟩
  · simp [parseLines, hs]
  · simp [parseLines, hs]
  · rw [hs] at h; simp at h
  · simp [parseLines, hs]

theorem runTasks_length (useCache : Bool) (timeout : Option Nat)
    (tasks : List (String × TaskEnv)) :
    ∀ (st : SysState) (vs : List Verdict) (st' : SysState),
      runTasks useCache timeout tasks st = some (vs, st') →
        vs.length = tasks.length := by
  induction tasks with
  | nil =>
      intro st vs st' h
      simp only [runTasks, Option.some.injEq, Prod.mk.injEq] at h
      rw [← h.1]
      rfl
  | cons t rest ih =>
      intro st vs st' h
      obtain ⟨p, env⟩ := t
      cases hc : check_video_corruption p useCache timeout env st with
      | none => simp [runTasks, hc] at h
      | some r =>
          obtain ⟨v, st1⟩ := r
          cases hr : runTasks useCache timeout rest st1 with
          | none => simp [runTasks, hc, hr] at h
          | some q =>
              obtain ⟨vs2, st2⟩ := q
              simp only [runTasks, hc, hr, Option.some.injEq, Prod.mk.injEq] at h
              rw [← h.1]
              simp only [List.length_cons]
              rw [ih st1 vs2 st2 hr]

theorem filterMap_toOption_map (vs : List Verdict) :
    (vs.map (fun v => (⟨false, Except.ok v⟩ : HarvestStep))).filterMap
      (fun s => s.result.toOption) = vs := by
  induction vs with
  | nil => rfl
  | cons v rest ihv =>
      simp only [List.map_cons, List.filterMap_cons, Except.toOption] at ihv ⊢
      rw [ihv]

theorem not_mem_unstage (staged : List String) (name : String) :
    name ∉ unstage staged name := by
  rw [unstage]
  by_cases h : name ∈ staged
  · rw [if_pos h]
    intro hm
    have := List.of_mem_filter hm
    simp at this
  · rw [if_neg h]
    exact h

theorem unstage_not_mem_eq (staged : List String) (name : String)
    (h : name ∉ staged) : unstage staged name = staged := by
  rw [unstage, if_neg h]

theorem finallyCleanup_staged_not_mem (hp : Bool) (pid : Nat) (name : String)
    (st : SysState) : name ∉ (finallyCleanup hp pid true name st).staged := by
  rw [finallyCleanup]
  cases hp <;> simp <;> exact not_mem_unstage _ name

theorem finallyCleanup_termRequested (hp : Bool) (pid : Nat) (hs : Bool)
    (name : String) (st : SysState) :
    (finallyCleanup hp pid hs name st).termRequested = st.termRequested := by
  rw [finallyCleanup]
  cases hp <;> cases hs <;> simp

theorem unstageFallible_none (staged : List String) (name : String) :
    unstageFallible staged name none = (unstage staged name, none) := by
  rw [unstageFallible, unstage]
  by_cases h : name ∈ staged
  · rw [if_pos h, if_pos h]
  · rw [if_neg h, if_neg h]

theorem finallyCleanupFallible_none (hp : Bool) (pid : Nat) (hs : Bool)
    (name : String) (st : SysState) :
    finallyCleanupFallible hp pid hs name none st =
      (finallyCleanup hp pid hs name st, none) := by
  rw [finallyCleanupFallible, finallyCleanup]
  cases hs with
  | false => simp
  | true => simp [unstageFallible_none]

theorem check_unlink_none (p : String) (uc : Bool) (timeout : Option Nat)
    (env : TaskEnv) (st : SysState) :
    check_video_corruption_unlink p uc timeout env none st =
      (check_video_corruption p uc timeout env st).map
        (fun r => (Except.ok r.1, r.2)) := by
  rw [check_video_corruption_unlink, check_video_corruption]
  by_cases h : (uc && !env.copyOk) = true
  · rw [if_pos h, if_pos h]
    rfl
  · rw [if_neg h, if_neg h]
    cases hsp : env.spawnFails with
    | some msg => simp [finallyCleanupFallible_none, raiseOr]
    | none =>
        cases hpl : pollLoop timeout env.poll with
        | none => rfl
        | some r => simp [finallyCleanupFallible_none, raiseOr]

theorem loopStateEffect_staged (pid : Nat) (r : LoopResult) (st : SysState) :
    (loopStateEffect pid r st).staged = st.staged := by
  cases r <;> rfl

theorem unstageFallible_some_mem (staged : List String) (name : String)
    (msg : String) (h : name ∈ staged) :
    unstageFallible staged name (some msg) = (staged, some msg) := by
  rw [unstageFallible, if_pos h]

theorem finallyCleanupFallible_some (hp : Bool) (pid : Nat) (name : String)
    (msg : String) (st : SysState) (h : name ∈ st.staged) :
    (finallyCleanupFallible hp pid true name (some msg) st).2 = some msg ∧
      name ∈ (finallyCleanupFallible hp pid true name (some msg) st).1.staged := by
  rw [finallyCleanupFallible]
  cases hp with
  | false => simp [unstageFallible_some_mem _ _ _ h]; exact h
  | true =>
      have h' : name ∈ ({ st with active := removeProc st.active pid } : SysState).staged := h
      simp [unstageFallible_some_mem _ _ _ h']
      exact h'

theorem check_unlink_fail (p : String) (timeout : Option Nat) (env : TaskEnv)
    (st : SysState) (msg : String) (r : Except String Verdict × SysState)
    (hcopy : env.copyOk = true)
    (hr : check_video_corruption_unlink p true timeout env (some msg) st = some r) :
    r.1 = Except.error msg ∧ env.localName ∈ r.2.staged := by
  rw [check_video_corruption_unlink, if_neg (by simp [hcopy])] at hr
  cases hsp : env.spawnFails with
  | some m =>
      rw [hsp] at hr
      have hmem : env.localName ∈ (stageState true env st).staged := by
        rw [stageState]
        simp
      obtain ⟨h2, h1⟩ :=
        finallyCleanupFallible_some false env.pid env.localName msg _ hmem
      injection hr with hr'
      rw [← hr', raiseOr, h2]
      exact ⟨rfl, h1⟩
  | none =>
      rw [hsp] at hr
      cases hpl : pollLoop timeout env.poll with
      | none =>
          rw [hpl] at hr
          exact absurd hr (by simp)
      | some lr =>
          rw [hpl] at hr
          have hmem : env.localName ∈
              (loopStateEffect env.pid lr (registerState true env st)).staged := by
            rw [loopStateEffect_staged]
            have : (registerState true env st).staged = (stageState true env st).staged := rfl
            rw [this, stageState]
            simp
          obtain ⟨h2, h1⟩ :=
            finallyCleanupFallible_some true env.pid env.localName msg _ hmem
          injection hr with hr'
          rw [← hr', raiseOr, h2]
          exact ⟨rfl, h1⟩

theorem run_analysis_no_stop (steps : List HarvestStep) (st : SysState) :
    run_analysis steps false st =
      (List.insertionSort pairLE (harvestLoop steps).corrupted, st) := rfl

theorem cleanup_clears_registry (st : SysState) :
    (cleanup_active_processes st).active = [] := by
  cases h : st.active with
  | nil => simp [cleanup_active_processes, h]
  | cons a as => simp [cleanup_active_processes, h]

/-! ## The claims -/

/-- Claim C1: if the stop flag is set at any point before the worker pool
finishes harvesting completions, `run_analysis` returns an empty result
sequence — every verdict already collected is discarded, not partially
reported — and the shared running-process registry is empty immediately after
the bulk cleanup of active processes returns.  The flag is write-once
(`hmono`), so being set at any checkpoint means it still reads set at the
post-loop check. -/
theorem claim_c1_stop_aborts (steps : List HarvestStep) (stopAtEnd : Bool)
    (st : SysState)
    (hmono : ∀ s ∈ steps, s.stopSet = true → stopAtEnd = true)
    (hseen : stopAtEnd = true ∨ ∃ s ∈ steps, s.stopSet = true) :
    (run_analysis steps stopAtEnd st).1 = [] ∧
      (run_analysis steps stopAtEnd st).2 = cleanup_active_processes st ∧
      (cleanup_active_processes st).active = [] := by
  have hstop : stopAtEnd = true := by
    rcases hseen with h | ⟨s, hs, hset⟩
    · exact h
    · exact hmono s hs hset
  subst hstop
  exact ⟨rfl, rfl, cleanup_clears_registry st⟩

def stepsC1 : List HarvestStep :=
  [⟨false, Except.ok ⟨"a", true, "Corruption detected"⟩⟩,
    ⟨true, Except.ok ⟨"b", false, "Healthy"⟩⟩]

theorem claim_c1_stop_aborts_witness :
    (run_analysis stepsC1 true ⟨[4, 5], [4, 5], [], []⟩).1 = [] ∧
      (run_analysis stepsC1 true ⟨[4, 5], [4, 5], [], []⟩).2 =
        cleanup_active_processes ⟨[4, 5], [4, 5], [], []⟩ ∧
      (cleanup_active_processes ⟨[4, 5], [4, 5], [], []⟩).active = [] :=
  claim_c1_stop_aborts stepsC1 true ⟨[4, 5], [4, 5], [], []⟩ (by decide)
    (Or.inr ⟨⟨true, Except.ok ⟨"b", false, "Healthy"⟩⟩, by decide, rfl⟩)

/-- Claim C5: a task with `use_cache = true` whose staging copy fails returns
`Verdict(corrupted = true, Local copy error)` immediately, with the shared
state returned exactly as it was received: no verifier process is ever spawned
for the task and the running-process registry is untouched. -/
theorem claim_c5_copy_error (p : String) (timeout : Option Nat) (env : TaskEnv)
    (st : SysState) (hfail : env.copyOk = false) :
    check_video_corruption p true timeout env st =
      some (⟨p, true, "Local copy error: " ++ env.copyErrMsg⟩, st) ∧
      ∀ r, check_video_corruption p true timeout env st = some r →
        r.2.spawned = st.spawned ∧ r.2.active = st.active := by
  have h := check_copy_fail p timeout env st hfail
  refine ⟨h, ?_⟩
  intro r hr
  rw [h] at hr
  injection hr with hr'
  rw [← hr']
  exact ⟨rfl, rfl⟩

def envC5 : TaskEnv := ⟨false, "No such file or directory", "loc", none, 3, [], false⟩

theorem claim_c5_copy_error_witness :
    check_video_corruption "/v/a.mp4" true none envC5 st0 =
      some (⟨"/v/a.mp4", true, "Local copy error: No such file or directory"⟩, st0) ∧
      (st0.spawned = st0.spawned ∧ st0.active = st0.active) :=
  ⟨(claim_c5_copy_error "/v/a.mp4" none envC5 st0 rfl).1,
    (claim_c5_copy_error "/v/a.mp4" none envC5 st0 rfl).2
      (⟨"/v/a.mp4", true, "Local copy error: No such file or directory"⟩, st0)
      (claim_c5_copy_error "/v/a.mp4" none envC5 st0 rfl).1⟩

/-- Claim C7: if a single task's future raises instead of returning a verdict,
the error is logged, that task contributes no verdict, and the pool continues:
the run returns exactly what it would have returned without the failing task,
and every other task's verdict is still harvested. -/
theorem claim_c7_error_isolation (pre post : List HarvestStep) (msg : String)
    (st : SysState) (hpre : ∀ s ∈ pre, s.stopSet = false) :
    run_analysis (pre ++ ⟨false, Except.error msg⟩ :: post) false st =
      run_analysis (pre ++ post) false st ∧
      (harvestLoop (pre ++ ⟨false, Except.error msg⟩ :: post)).harvested =
        (harvestLoop (pre ++ post)).harvested ∧
      ("An analysis task failed: " ++ msg) ∈
        (harvestLoop (pre ++ ⟨false, Except.error msg⟩ :: post)).errors := by
  have hmid : harvestLoop (⟨false, Except.error msg⟩ :: post) =
      ⟨(harvestLoop post).corrupted, (harvestLoop post).harvested,
        ("An analysis task failed: " ++ msg) :: (harvestLoop post).errors⟩ := rfl
  have hA := harvestLoop_append pre (⟨false, Except.error msg⟩ :: post) hpre
  have hB := harvestLoop_append pre post hpre
  refine ⟨?_, ?_, ?_⟩
  · rw [run_analysis_no_stop, run_analysis_no_stop, hA, hB, hmid]
  · rw [hA, hB, hmid]
  · rw [hA, hmid]
    simp

def preC7 : List HarvestStep := [⟨false, Except.ok ⟨"b", true, "Corruption detected"⟩⟩]

def postC7 : List HarvestStep := [⟨false, Except.ok ⟨"a", true, "Timeout (2s)"⟩⟩]

theorem claim_c7_error_isolation_witness :
    run_analysis (preC7 ++ ⟨false, Except.error "boom"⟩ :: postC7) false st0 =
      run_analysis (preC7 ++ postC7) false st0 ∧
      (harvestLoop (preC7 ++ ⟨false, Except.error "boom"⟩ :: postC7)).harvested =
        (harvestLoop (preC7 ++ postC7)).harvested ∧
      ("An analysis task failed: " ++ "boom") ∈
        (harvestLoop (preC7 ++ ⟨false, Except.error "boom"⟩ :: postC7)).errors :=
  claim_c7_error_isolation preC7 postC7 "boom" st0 (by decide)

/-- Claim C2: for every task set of size K run when the stop flag is never
set, exactly K verdicts are produced — every dispatched task yields exactly one
verdict via `check_video_corruption`, and the harvested verdicts of the pool,
in whatever completion order the workers finish, are exactly those K verdicts,
none silently dropped. -/
theorem claim_c2_all_verdicts (useCache : Bool) (timeout : Option Nat)
    (tasks : List (String × TaskEnv)) (st st' : SysState) (vs : List Verdict)
    (hrun : runTasks useCache timeout tasks st = some (vs, st'))
    (steps : List HarvestStep)
    (hperm : steps.Perm (vs.map (fun v => ⟨false, Except.ok v⟩))) :
    vs.length = tasks.length ∧
      (harvestLoop steps).harvested.Perm vs ∧
      (harvestLoop steps).harvested.length = tasks.length := by
  have hlen := runTasks_length useCache timeout tasks st vs st' hrun
  have hstop : ∀ s ∈ steps, s.stopSet = false := by
    intro s hs
    obtain ⟨v, _, hv⟩ := List.mem_map.mp (hperm.subset hs)
    rw [← hv]
  have hfm := harvested_filterMap steps hstop
  have hperm2 := hperm.filterMap (fun s => s.result.toOption)
  rw [filterMap_toOption_map vs] at hperm2
  rw [hfm]
  exact ⟨hlen, hperm2, by rw [hperm2.length_eq, hlen]⟩

def tasksC2 : List (String × TaskEnv) :=
  [("/v/a.mp4", ⟨true, "", "l1", none, 1, [⟨none, some 0, false, false⟩], false⟩),
    ("/v/b.mp4", ⟨true, "", "l2", none, 2, [⟨none, some 1, false, false⟩], false⟩)]

def vsC2 : List Verdict :=
  [⟨"/v/a.mp4", false, "Healthy"⟩, ⟨"/v/b.mp4", true, "Corruption detected"⟩]

def stepsC2 : List HarvestStep :=
  [⟨false, Except.ok ⟨"/v/b.mp4", true, "Corruption detected"⟩⟩,
    ⟨false, Except.ok ⟨"/v/a.mp4", false, "Healthy"⟩⟩]

theorem claim_c2_all_verdicts_witness :
    vsC2.length = tasksC2.length ∧
      (harvestLoop stepsC2).harvested.Perm vsC2 ∧
      (harvestLoop stepsC2).harvested.length = tasksC2.length :=
  claim_c2_all_verdicts false none tasksC2 st0 ⟨[], [2, 1], [], []⟩ vsC2
    (by decide) stepsC2 (by decide)

/-- Claim C3: classification of an uncancelled per-file analysis: the verifier
exiting on its own with code 0 yields `Healthy` with corrupted = false; any
nonzero natural exit yields `Corruption detected` with corrupted = true; the
optional per-task timeout elapsing first terminates the process and yields
`Timeout(seconds)` with corrupted = true; and any unexpected exception during
spawn or poll while the stop flag is unset yields `Unexpected error: message`
with corrupted = true. -/
theorem claim_c3_classification :
    (∀ (p : String) (uc : Bool) (timeout : Option Nat) (env : TaskEnv)
        (st : SysState), (uc = true → env.copyOk = true) →
        env.spawnFails = none → pollLoop timeout env.poll = some (.exited 0) →
        (check_video_corruption p uc timeout env st).map Prod.fst =
          some ⟨p, false, "Healthy"⟩) ∧
    (∀ (p : String) (uc : Bool) (timeout : Option Nat) (env : TaskEnv)
        (st : SysState) (code : Int), (uc = true → env.copyOk = true) →
        env.spawnFails = none → code ≠ 0 →
        pollLoop timeout env.poll = some (.exited code) →
        (check_video_corruption p uc timeout env st).map Prod.fst =
          some ⟨p, true, "Corruption detected"⟩) ∧
    (∀ (p : String) (uc : Bool) (t : Nat) (env : TaskEnv) (st : SysState),
        (uc = true → env.copyOk = true) → env.spawnFails = none →
        pollLoop (some t) env.poll = some (.timedOut t) →
        (check_video_corruption p uc (some t) env st).map Prod.fst =
          some ⟨p, true, "Timeout (" ++ toString t ++ "s)"⟩ ∧
          checkTermRequested p uc (some t) env st = true) ∧
    (∀ (p : String) (uc : Bool) (timeout : Option Nat) (env : TaskEnv)
        (st : SysState) (msg : String), (uc = true → env.copyOk = true) →
        env.stopAtHandler = false →
        (env.spawnFails = some msg ∨
          (env.spawnFails = none ∧ pollLoop timeout env.poll = some (.raised msg))) →
        (check_video_corruption p uc timeout env st).map Prod.fst =
          some ⟨p, true, "Unexpected error: " ++ msg⟩) := by
  refine ⟨?_, ?_, ?_, ?_⟩
  · intro p uc timeout env st hcopy hsp hpoll
    rw [check_spawn_ok p uc timeout env st _ hcopy hsp hpoll]
    rfl
  · intro p uc timeout env st code hcopy hsp hcode hpoll
    rw [check_spawn_ok p uc timeout env st _ hcopy hsp hpoll]
    simp [classifyLoop, hcode]
  · intro p uc t env st hcopy hsp hpoll
    constructor
    · rw [check_spawn_ok p uc (some t) env st _ hcopy hsp hpoll]
      rfl
    · simp only [checkTermRequested,
        check_spawn_ok p uc (some t) env st _ hcopy hsp hpoll]
      rw [finallyCleanup_termRequested]
      simp [loopStateEffect, requestTerm]
  · intro p uc timeout env st msg hcopy hstop hsrc
    rcases hsrc with hsp | ⟨hsp, hpoll⟩
    · rw [check_spawn_fail p uc timeout env st msg hcopy hsp]
      simp [classifyExcept, hstop]
    · rw [check_spawn_ok p uc timeout env st _ hcopy hsp hpoll]
      simp [classifyLoop, classifyExcept, hstop]

def envExit0 : TaskEnv := ⟨true, "", "loc", none, 7, [⟨none, some 0, false, false⟩], false⟩

def envExit1 : TaskEnv :=
  ⟨true, "", "loc", none, 7, [⟨none, none, false, false⟩, ⟨none, some 1, false, false⟩], false⟩

def envTimeout : TaskEnv := ⟨true, "", "loc", none, 7, [⟨none, none, false, true⟩], false⟩

def envRaise : TaskEnv := ⟨true, "", "loc", none, 7, [⟨some "boom", none, false, false⟩], false⟩

theorem claim_c3_classification_witness :
    (check_video_corruption "p" false none envExit0 st0).map Prod.fst =
        some ⟨"p", false, "Healthy"⟩ ∧
      (check_video_corruption "p" false none envExit1 st0).map Prod.fst =
        some ⟨"p", true, "Corruption detected"⟩ ∧
      ((check_video_corruption "p" false (some 2) envTimeout st0).map Prod.fst =
          some ⟨"p", true, "Timeout (" ++ toString 2 ++ "s)"⟩ ∧
        checkTermRequested "p" false (some 2) envTimeout st0 = true) ∧
      (check_video_corruption "p" false none envRaise st0).map Prod.fst =
        some ⟨"p", true, "Unexpected error: " ++ "boom"⟩ :=
  ⟨claim_c3_classification.1 "p" false none envExit0 st0
      (fun h => absurd h Bool.false_ne_true) rfl rfl,
    claim_c3_classification.2.1 "p" false none envExit1 st0 1
      (fun h => absurd h Bool.false_ne_true) rfl (by decide) rfl,
    claim_c3_classification.2.2.1 "p" false 2 envTimeout st0
      (fun h => absurd h Bool.false_ne_true) rfl rfl,
    claim_c3_classification.2.2.2 "p" false none envRaise st0 "boom"
      (fun h => absurd h Bool.false_ne_true) rfl (Or.inr ⟨rfl, rfl⟩)⟩

/-- Claim C4: a Cancelled verdict always carries corrupted = false —
cancellation is never a corruption signal — and verdicts whose reason is
Cancelled never appear in the aggregated corrupted-file output of
`run_analysis`, whatever the harvested sequence is. -/
theorem claim_c4_cancelled_excluded :
    (∀ (p : String) (uc : Bool) (timeout : Option Nat) (env : TaskEnv)
        (st : SysState) (r : Verdict × SysState),
        check_video_corruption p uc timeout env st = some r →
        r.1.reason = "Cancelled" → r.1.corrupted = false) ∧
    (∀ (steps : List HarvestStep) (stopAtEnd : Bool) (st : SysState),
        (∀ s ∈ steps, ∀ v, s.result = Except.ok v →
          v.reason = "Cancelled" → v.corrupted = false) →
        ∀ e ∈ (run_analysis steps stopAtEnd st).1, e.2 ≠ "Cancelled") := by
  constructor
  · intro p uc timeout env st r hr
    by_cases hcf : uc = true ∧ env.copyOk = false
    · rw [hcf.1, check_copy_fail p timeout env st hcf.2] at hr
      injection hr with hr'
      rw [← hr']
      intro habs
      exact absurd habs
        (append_ne_cancelled "Local copy error: " env.copyErrMsg (by decide))
    · have hcopy : uc = true → env.copyOk = true := by
        intro h
        by_contra hc
        exact hcf ⟨h, by simpa using hc⟩
      cases hsp : env.spawnFails with
      | some msg =>
          rw [check_spawn_fail p uc timeout env st msg hcopy hsp] at hr
          injection hr with hr'
          rw [← hr']
          exact classifyExcept_cancelled_not_corrupted p env.stopAtHandler msg
      | none =>
          cases hpl : pollLoop timeout env.poll with
          | none =>
              rw [check_diverges p uc timeout env st hcopy hsp hpl] at hr
              exact absurd hr (by simp)
          | some lr =>
              rw [check_spawn_ok p uc timeout env st lr hcopy hsp hpl] at hr
              injection hr with hr'
              rw [← hr']
              exact classifyLoop_cancelled_not_corrupted p env.stopAtHandler lr
  · intro steps stopAtEnd st hsafe e he
    cases stopAtEnd with
    | true => exact absurd he (List.not_mem_nil e)
    | false =>
        rw [run_analysis_no_stop] at he
        obtain ⟨s, hs, v, hres, hcorr, he'⟩ :=
          mem_harvestLoop_corrupted steps e ((List.mem_insertionSort pairLE).mp he)
        intro habs
        have hv : v.corrupted = false := hsafe s hs v hres (by rw [he'] at habs; exact habs)
        rw [hv] at hcorr
        exact Bool.false_ne_true hcorr

def envC4 : TaskEnv := ⟨true, "", "loc", none, 7, [⟨none, none, true, false⟩], false⟩

def stepsC4 : List HarvestStep :=
  [⟨false, Except.ok ⟨"a", false, "Cancelled"⟩⟩,
    ⟨false, Except.ok ⟨"b", true, "Corruption detected"⟩⟩]

theorem claim_c4_cancelled_excluded_witness :
    ((⟨"p", false, "Cancelled"⟩ : Verdict).corrupted = false) ∧
      ("a", "Cancelled") ∉ (run_analysis stepsC4 false st0).1 :=
  ⟨claim_c4_cancelled_excluded.1 "p" false none envC4 st0
      (⟨"p", false, "Cancelled"⟩, ⟨[], [7], [7], []⟩) rfl rfl,
    fun hmem =>
      claim_c4_cancelled_excluded.2 stepsC4 false st0
        (by
          intro s hs v hv
          rcases List.mem_cons.mp hs with h | h
          · subst h
            injection hv with hv'
            rw [← hv']
            intro _
            rfl
          · rcases List.mem_cons.mp h with h2 | h2
            · subst h2
              injection hv with hv'
              rw [← hv']
              intro habs
              exact absurd habs (by decide)
            · exact absurd h2 (List.not_mem_nil s))
        ("a", "Cancelled") hmem rfl⟩

def envC8 : TaskEnv :=
  ⟨true, "", "/tmp/abcd-a.mp4", none, 9, [⟨none, some 0, false, false⟩], false⟩

/-- Claim C8 as stated is false on its deletion-error conjunct: the
`unlink()` of line 287 sits in a `finally` block with no handler of its own,
so a deletion error is not ignored by the analysis — on a run whose staged
copy resists deletion, the exception replaces the worker's pending return
value (the Healthy verdict is lost and the future raises) and the staged copy
stays on local storage, so it is also not deleted on that exit path.  The
same input with an error-free deletion returns the Healthy verdict with the
copy gone, isolating the deletion error as the sole cause. -/
theorem claim_c8_counterexample :
    check_video_corruption "p" true none envC8 st0 =
        some (⟨"p", false, "Healthy"⟩, ⟨[], [9], [], []⟩) ∧
      check_video_corruption_unlink "p" true none envC8
          (some "Device or resource busy") st0 =
        some (Except.error "Device or resource busy",
          ⟨[], [9], [], ["/tmp/abcd-a.mp4"]⟩) ∧
      "/tmp/abcd-a.mp4" ∈
        (⟨[], [9], [], ["/tmp/abcd-a.mp4"]⟩ : SysState).staged := by
  refine ⟨?_, ?_, ?_⟩ <;> decide

/-- Claim C8 (amended): whenever a local staged copy was created for a task,
its deletion is attempted by the `finally` block on every terminating exit
path of the analysis — success, corruption, timeout, cancellation or
exception — and the unstage operation is idempotent (the existence guard
makes it a no-op when the copy is already removed), so whenever the deletion
does not itself fail the copy is gone from local storage in the final state
(`check_video_corruption` is exactly the error-free-deletion instance of the
fallible model).  A deletion error, however, is not ignored inside the
worker: the exception replaces the task's verdict, leaves the copy on local
storage, and reaches the pool as a raised future, which the pool merely logs
generically while continuing. -/
theorem claim_c8_staged_cleanup :
    (∀ (p : String) (timeout : Option Nat) (env : TaskEnv) (st : SysState)
        (r : Verdict × SysState), env.copyOk = true →
        check_video_corruption p true timeout env st = some r →
        env.localName ∉ r.2.staged) ∧
    (∀ (p : String) (uc : Bool) (timeout : Option Nat) (env : TaskEnv)
        (st : SysState),
        check_video_corruption_unlink p uc timeout env none st =
          (check_video_corruption p uc timeout env st).map
            (fun r => (Except.ok r.1, r.2))) ∧
    (∀ (p : String) (timeout : Option Nat) (env : TaskEnv) (st : SysState)
        (msg : String) (r : Except String Verdict × SysState),
        env.copyOk = true →
        check_video_corruption_unlink p true timeout env (some msg) st = some r →
        r.1 = Except.error msg ∧ env.localName ∈ r.2.staged) ∧
    (∀ (msg : String) (rest : List HarvestStep),
        harvestLoop (⟨false, Except.error msg⟩ :: rest) =
          ⟨(harvestLoop rest).corrupted, (harvestLoop rest).harvested,
            ("An analysis task failed: " ++ msg) :: (harvestLoop rest).errors⟩) ∧
    (∀ (staged : List String) (name : String),
        unstage (unstage staged name) name = unstage staged name) := by
  refine ⟨?_, ?_, ?_, ?_, ?_⟩
  · intro p timeout env st r hcopy hr
    have hcopy' : (true : Bool) = true → env.copyOk = true := fun _ => hcopy
    cases hsp : env.spawnFails with
    | some msg =>
        rw [check_spawn_fail p true timeout env st msg hcopy' hsp] at hr
        injection hr with hr'
        rw [← hr']
        exact finallyCleanup_staged_not_mem false env.pid env.localName _
    | none =>
        cases hpl : pollLoop timeout env.poll with
        | none =>
            rw [check_diverges p true timeout env st hcopy' hsp hpl] at hr
            exact absurd hr (by simp)
        | some lr =>
            rw [check_spawn_ok p true timeout env st lr hcopy' hsp hpl] at hr
            injection hr with hr'
            rw [← hr']
            exact finallyCleanup_staged_not_mem true env.pid env.localName _
  · intro p uc timeout env st
    exact check_unlink_none p uc timeout env st
  · intro p timeout env st msg r hcopy hr
    exact check_unlink_fail p timeout env st msg r hcopy hr
  · intro msg rest
    rfl
  · intro staged name
    exact unstage_not_mem_eq _ name (not_mem_unstage staged name)

def rC8bad : Except String Verdict × SysState :=
  (Except.error "Device or resource busy", ⟨[], [9], [], ["/tmp/abcd-a.mp4"]⟩)

theorem claim_c8_staged_cleanup_witness :
    "/tmp/abcd-a.mp4" ∉ (⟨[], [9], [], []⟩ : SysState).staged ∧
      (rC8bad.1 = Except.error "Device or resource busy" ∧
        "/tmp/abcd-a.mp4" ∈ rC8bad.2.staged) ∧
      unstage (unstage ["x"] "x") "x" = unstage ["x"] "x" :=
  ⟨claim_c8_staged_cleanup.1 "p" none envC8 st0
      (⟨"p", false, "Healthy"⟩, ⟨[], [9], [], []⟩) rfl rfl,
    claim_c8_staged_cleanup.2.2.1 "p" none envC8 st0 "Device or resource busy"
      rC8bad rfl rfl,
    claim_c8_staged_cleanup.2.2.2.2 ["x"] "x"⟩

/-- Claim C6 as stated is false: the sort key of line 311 is the path alone
and Python's sort is stable, so when two corrupted verdicts share a path the
output order among them follows completion order — two permutations of the
same input verdicts aggregate to different outputs. -/
theorem claim_c6_counterexample :
    ([⟨"a", true, "Corruption detected"⟩, ⟨"a", true, "Timeout (2s)"⟩] : List Verdict).Perm
        [⟨"a", true, "Timeout (2s)"⟩, ⟨"a", true, "Corruption detected"⟩] ∧
      finalizeVerdicts [⟨"a", true, "Corruption detected"⟩, ⟨"a", true, "Timeout (2s)"⟩] ≠
        finalizeVerdicts [⟨"a", true, "Timeout (2s)"⟩, ⟨"a", true, "Corruption detected"⟩] := by
  constructor
  · decide
  · decide

/-- Claim C6 (amended): `run_analysis` aggregates by filtering verdicts to
corrupted = true and stably sorting them ascending by full path string
ordering; the output is sorted; re-sorting an already-sorted output yields the
same list; and for every permutation of the same input verdicts the output is
identical provided the corrupted verdicts' paths are pairwise distinct — which
holds for every pool run over distinct files, the completion-order case the
claim describes. -/
theorem claim_c6_amended :
    (∀ (steps : List HarvestStep) (st : SysState),
        run_analysis steps false st =
          (finalizeVerdicts (harvestLoop steps).harvested, st)) ∧
    (∀ vs : List Verdict, (finalizeVerdicts vs).Sorted pairLE) ∧
    (∀ vs vs' : List Verdict, vs.Perm vs' →
        ((vs.filter (fun v => v.corrupted)).map Verdict.path).Nodup →
        finalizeVerdicts vs = finalizeVerdicts vs') ∧
    (∀ vs : List Verdict,
        List.insertionSort pairLE (finalizeVerdicts vs) = finalizeVerdicts vs) := by
  refine ⟨?_, ?_, ?_, ?_⟩
  · intro steps st
    rw [run_analysis_no_stop, harvestLoop_corrupted_eq_entries]
    rfl
  · intro vs
    exact List.sorted_insertionSort pairLE _
  · intro vs vs' hperm hnd
    have hperm2 : (corruptedEntries vs).Perm (corruptedEntries vs') := by
      rw [corruptedEntries, corruptedEntries]
      exact (hperm.filter (fun v => v.corrupted)).map (fun v => (v.path, v.reason))
    have hkeys : ((corruptedEntries vs).map Prod.fst).Nodup := by
      rw [corruptedEntries, List.map_map]
      exact hnd
    have hsortperm : (finalizeVerdicts vs).Perm (finalizeVerdicts vs') :=
      ((List.perm_insertionSort pairLE (corruptedEntries vs)).trans hperm2).trans
        (List.perm_insertionSort pairLE (corruptedEntries vs')).symm
    have hkeys2 : ((finalizeVerdicts vs).map Prod.fst).Nodup :=
      (((List.perm_insertionSort pairLE (corruptedEntries vs)).map
        Prod.fst).nodup_iff).mpr hkeys
    exact sortedKeyNodupEq _ _ hsortperm (List.sorted_insertionSort pairLE _)
      (List.sorted_insertionSort pairLE _) hkeys2
  · intro vs
    exact (List.sorted_insertionSort pairLE (corruptedEntries vs)).insertionSort_eq

theorem claim_c6_amended_witness :
    run_analysis stepsC2 false st0 =
        (finalizeVerdicts (harvestLoop stepsC2).harvested, st0) ∧
      finalizeVerdicts
          [⟨"b", true, "Corruption detected"⟩, ⟨"a", true, "Timeout (2s)"⟩] =
        finalizeVerdicts
          [⟨"a", true, "Timeout (2s)"⟩, ⟨"b", true, "Corruption detected"⟩] :=
  ⟨claim_c6_amended.1 stepsC2 st0,
    claim_c6_amended.2.2.1
      [⟨"b", true, "Corruption detected"⟩, ⟨"a", true, "Timeout (2s)"⟩]
      [⟨"a", true, "Timeout (2s)"⟩, ⟨"b", true, "Corruption detected"⟩]
      (by decide) (by decide)⟩

/-- Claim C9 as stated is false: a reason containing a tab makes the written
line split into three tab-separated fields, so reloading silently drops the
pair even though every path still exists on disk — the round trip loses it. -/
theorem claim_c9_counterexample :
    (load_report (fun _ => true)
        (save_report [(['p'], ['a', '\t', 'b'])])).1 ≠ [(['p'], ['a', '\t', 'b'])] := by
  decide

/-- Claim C9 (amended): for pairs whose path and reason are free of tabs and
newlines and whose written line is unchanged by whitespace stripping, writing
N pairs and reloading yields the same N pairs, with no warnings, when every
path still exists on disk; and when exactly one listed path no longer exists,
reloading yields N - 1 pairs and logs a warning naming the missing path. -/
theorem claim_c9_amended (pairs : List (PyStr × PyStr)) (fsE : PyStr → Bool)
    (hg : ∀ pr ∈ pairs, GoodPair pr) :
    ((∀ pr ∈ pairs, fsE pr.1 = true) →
        load_report fsE (save_report pairs) = (pairs, [])) ∧
    (∀ p0 : PyStr,
        (pairs.filter (fun pr => pr.1 == p0)).length = 1 →
        (∀ pr ∈ pairs, fsE pr.1 = !(pr.1 == p0)) →
        (load_report fsE (save_report pairs)).1.length + 1 = pairs.length ∧
          warnMsg p0 ∈ (load_report fsE (save_report pairs)).2) := by
  have hls := load_report_save_report fsE pairs hg
  constructor
  · intro hall
    rw [hls, List.filter_eq_self.mpr hall]
    have hnil : pairs.filter (fun pr => !fsE pr.1) = [] := by
      rw [List.filter_eq_nil_iff]
      intro pr hpr
      rw [hall pr hpr]
      decide
    rw [hnil]
    rfl
  · intro p0 hcount hfs
    have h1 : (load_report fsE (save_report pairs)).1 =
        pairs.filter (fun pr => fsE pr.1) := by rw [hls]
    have h2 : (load_report fsE (save_report pairs)).2 =
        (pairs.filter (fun pr => !fsE pr.1)).map (fun pr => warnMsg pr.1) := by
      rw [hls]
    have hfilter_eq : pairs.filter (fun pr => fsE pr.1) =
        pairs.filter (fun pr => !(pr.1 == p0)) :=
      List.filter_congr (fun pr hpr => hfs pr hpr)
    have hfilter_neg : pairs.filter (fun pr => !fsE pr.1) =
        pairs.filter (fun pr => pr.1 == p0) :=
      List.filter_congr (fun pr hpr => by rw [hfs pr hpr, Bool.not_not])
    constructor
    · rw [h1, hfilter_eq]
      have hsplit := @List.length_eq_length_filter_add
        (PyStr × PyStr) pairs (fun pr => pr.1 == p0)
      rw [hcount,
        show (fun x => !(fun pr : PyStr × PyStr => pr.1 == p0) x) =
          (fun pr : PyStr × PyStr => !(pr.1 == p0)) from rfl] at hsplit
      omega
    · rw [h2, hfilter_neg]
      cases hflt : pairs.filter (fun pr => pr.1 == p0) with
      | nil => rw [hflt] at hcount; simp at hcount
      | cons pr rest =>
          have hpr : pr ∈ pairs.filter (fun pr => pr.1 == p0) :=
            hflt ▸ List.mem_cons_self pr rest
          have hpr0 : pr.1 = p0 := eq_of_beq (List.mem_filter.mp hpr).2
          rw [List.map_cons, hpr0]
          exact List.mem_cons_self _ _

def pairsC9 : List (PyStr × PyStr) :=
  [("/v/a.mp4".data, "Corruption detected".data),
    ("/v/b.mp4".data, "Timeout (2s)".data)]

theorem claim_c9_amended_witness :
    load_report (fun _ => true) (save_report pairsC9) = (pairsC9, []) ∧
      ((load_report (fun q => !(q == "/v/b.mp4".data)) (save_report pairsC9)).1.length + 1 =
          pairsC9.length ∧
        warnMsg "/v/b.mp4".data ∈
          (load_report (fun q => !(q == "/v/b.mp4".data)) (save_report pairsC9)).2) :=
  ⟨(claim_c9_amended pairsC9 (fun _ => true) (by decide)).1 (by decide),
    (claim_c9_amended pairsC9 (fun q => !(q == "/v/b.mp4".data)) (by decide)).2
      "/v/b.mp4".data (by decide) (by decide)⟩

/-- Claim C10 as stated is false on one point: a record whose reason contains
a newline is not silently dropped — its first physical line still splits into
exactly two fields, so reloading yields a truncated pair. -/
theorem claim_c10_counterexample :
    (load_report (fun _ => true)
        (save_report [(['p'], ['a', '\n', 'b'])])).1 = [(['p'], ['a'])] ∧
      ([(['p'], ['a'])] : List (PyStr × PyStr)) ≠ [] := by
  constructor
  · decide
  · decide

/-- Claim C10 (amended): `load_report` returns only pairs parsed from lines
that split, after whitespace stripping, into exactly two tab-separated fields;
any line that does not — a blank line, a line with no tab, or the line of a
newline-free record whose reason contains a tab — is silently dropped with no
warning or error; a record whose reason contains a newline instead contributes
the parse of each physical line it spans, possibly a truncated pair; and every
loaded pair has a tab-free and newline-free reason, so the save/load round
trip can hold only for reason strings free of tab and newline. -/
theorem claim_c10_amended :
    (∀ (fsE : PyStr → Bool) (content : PyStr) (pr : PyStr × PyStr),
        pr ∈ (load_report fsE content).1 →
        ∃ line ∈ splitOnChar '\n' content,
          splitOnChar '\t' (pyStrip line) = [pr.1, pr.2] ∧ fsE pr.1 = true) ∧
    (∀ (fsE : PyStr → Bool) (line : PyStr) (rest : List PyStr),
        (splitOnChar '\t' (pyStrip line)).length ≠ 2 →
        parseLines fsE (line :: rest) = parseLines fsE rest) ∧
    (∀ (fsE : PyStr → Bool) (p r : PyStr),
        pyStrip (lineOf (p, r)) = lineOf (p, r) → '\n' ∉ p → '\n' ∉ r →
        '\t' ∈ r → load_report fsE (save_report [(p, r)]) = ([], [])) ∧
    (∀ (fsE : PyStr → Bool) (content : PyStr) (pr : PyStr × PyStr),
        pr ∈ (load_report fsE content).1 →
        '\t' ∉ pr.2 ∧ '\n' ∉ pr.2) := by
  refine ⟨?_, ?_, ?_, ?_⟩
  · intro fsE content pr hpr
    exact parseLines_mem fsE (splitOnChar '\n' content) pr hpr
  · intro fsE line rest h
    exact parseLines_bad_line fsE line h rest
  · intro fsE p r hstrip hnp hnr htab
    have hline : '\n' ∉ lineOf (p, r) := by
      intro hm
      rw [lineOf] at hm
      rcases List.mem_append.mp hm with h | h
      · exact hnp h
      · rcases List.mem_cons.mp h with h | h
        · exact absurd h (by decide)
        · exact hnr h
    have hsplit : splitOnChar '\n' (save_report [(p, r)]) = [lineOf (p, r), []] := by
      have := save_report_split [(p, r)] (by
        intro q hq
        rw [List.mem_singleton.mp hq]
        exact hline)
      simpa using this
    have hcount : 2 ≤ (lineOf (p, r)).count '\t' := by
      rw [lineOf]
      have h1 : 0 < r.count '\t' := List.count_pos_iff.mpr htab
      have h2 : (p ++ '\t' :: r).count '\t' =
          p.count '\t' + ('\t' :: r).count '\t' := by
        rw [List.count_append]
      rw [h2, List.count_cons_self]
      omega
    have hbad : (splitOnChar '\t' (pyStrip (lineOf (p, r)))).length ≠ 2 := by
      rw [hstrip, length_splitOnChar]
      omega
    rw [load_report, hsplit, parseLines_bad_line fsE _ hbad]
    rfl
  · intro fsE content pr hpr
    obtain ⟨line, hline, hsplit, _⟩ :=
      parseLines_mem fsE (splitOnChar '\n' content) pr hpr
    have hr : pr.2 ∈ splitOnChar '\t' (pyStrip line) := by
      rw [hsplit]
      exact List.mem_cons_of_mem pr.1 (List.mem_singleton.mpr rfl)
    constructor
    · exact fun hm => not_sep_of_mem_splitOnChar '\t' (pyStrip line) pr.2 hr hm
    · intro hm
      have hml : '\n' ∈ line :=
        mem_of_mem_pyStrip line '\n'
          (mem_of_mem_splitOnChar '\t' (pyStrip line) pr.2 hr '\n' hm)
      exact not_sep_of_mem_splitOnChar '\n' content line hline hml

theorem claim_c10_amended_witness :
    (∃ line ∈ splitOnChar '\n' (save_report pairsC9),
        splitOnChar '\t' (pyStrip line) =
          ["/v/a.mp4".data, "Corruption detected".data] ∧ true = true) ∧
      parseLines (fun _ => true) ["no tab here".data] = ([], []) ∧
      load_report (fun _ => true) (save_report [(['p'], ['a', '\t', 'b'])]) = ([], []) ∧
      ('\t' ∉ ("Corruption detected".data : PyStr) ∧
        '\n' ∉ ("Corruption detected".data : PyStr)) :=
  ⟨claim_c10_amended.1 (fun _ => true) (save_report pairsC9)
      ("/v/a.mp4".data, "Corruption detected".data) (by decide),
    claim_c10_amended.2.1 (fun _ => true) "no tab here".data [] (by decide),
    claim_c10_amended.2.2.1 (fun _ => true) ['p'] ['a', '\t', 'b']
      (by decide) (by decide) (by decide) (by decide),
    claim_c10_amended.2.2.2 (fun _ => true) (save_report pairsC9)
      ("/v/a.mp4".data, "Corruption detected".data) (by decide)⟩

end VCheck
